import Mathlib

/-!
Verification development for the MOSS scan-orchestration pipeline
(`cmd/moss/main.go`): organization-scoped repository discovery with a
time cutoff, per-repository clone-and-scan execution, and counting
result aggregation.  The Go functions `check_gitleaks_conf`,
`scan_repo`, `get_org_repos` and `main` are embedded shallowly: effects
(filesystem, subprocesses, the hosting API, the process environment)
become explicit oracle parameters, loops that can run forever become
fuel-indexed functions returning `none` when no bound suffices, and the
channel-based aggregation loop becomes a function over the arrival
sequence of results.
-/

namespace Moss

/-- A repository descriptor as returned by the hosting API
(`github.Repository`): the fields read by `main.go` — name, full name
(`org/name`), canonical URL, clone URL, private flag, archived flag and
last-push timestamp.  Timestamps are modelled as integers (days). -/
structure Repo where
  name : String
  fullName : String
  url : String
  cloneUrl : String
  isPrivate : Bool
  archived : Bool
  pushedAt : Int
deriving DecidableEq, Repr

/-- One opaque finding record emitted by the external secret-detection
tool (`GitleaksResult`); the pipeline treats it as pass-through data, so
it is modelled as an opaque string payload. -/
structure GitleaksResult where
  raw : String
deriving DecidableEq, Repr

/-- The per-repository scan outcome (`GitleaksRepoResult`): repository
identity, either findings or a captured error.  The Go zero value has
`Err = nil` and `Results = nil`, modelled as `none` and `[]`. -/
structure GitleaksRepoResult where
  Repository : String
  URL : String
  IsPrivate : Bool
  Org : String
  Err : Option String := none
  Results : List GitleaksResult := []
deriving DecidableEq, Repr

/-- One structured log line (`zerolog`): message, string fields, and an
optional attached error. -/
structure LogEntry where
  msg : String
  strs : List (String × String) := []
  err : Option String := none
deriving DecidableEq, Repr

/-! ## Token occurrence

`containsToken tok s` holds when `tok` occurs as a contiguous substring
of `s`; used to state that the access token never reaches a scan result
or a log line. -/

/-- Substring check on character lists: `tok` is an infix of `l`. -/
def listContains (tok : List Char) : List Char → Bool
  | [] => tok.isEmpty
  | c :: rest => tok.isPrefixOf (c :: rest) || listContains tok rest

/-- `tok` occurs as a contiguous substring of `s`. -/
def containsToken (tok s : String) : Bool :=
  listContains tok.toList s.toList

theorem isPrefixOf_append_self (p t : List Char) : p.isPrefixOf (p ++ t) = true := by
  induction p with
  | nil => simp [List.isPrefixOf]
  | cons c cs ih => simp [List.isPrefixOf, ih]

theorem listContains_append_self (p pre suf : List Char) :
    listContains p (pre ++ p ++ suf) = true := by
  induction pre with
  | nil =>
    cases p with
    | nil => cases suf <;> simp [listContains, List.isEmpty, List.isPrefixOf]
    | cons c cs =>
      have h := isPrefixOf_append_self (c :: cs) suf
      simp only [List.cons_append, List.append_eq, List.nil_append] at h ⊢
      simp [listContains, h]
  | cons c cs ih =>
    simp only [List.cons_append, List.append_eq] at ih ⊢
    simp only [listContains, Bool.or_eq_true]
    right
    exact ih

/-! ## Go string helpers

`strings.Split(s, "/")[0]` and `strings.Replace(s, old, new, 1)` as used
by `main.go`. -/

/-- `strings.Split(s, "/")[0]`: the prefix of `s` before the first
slash (the whole of `s` when it has no slash). -/
def beforeSlash (s : String) : String :=
  String.mk (s.toList.takeWhile (fun c => c ≠ '/'))

/-- `strings.Replace(s, old, new, 1)` on character lists: replace the
first occurrence of `old` with `new`. -/
def replaceFirst (old new : List Char) : List Char → List Char
  | [] => []
  | c :: rest =>
    if old.isPrefixOf (c :: rest) then new ++ (c :: rest).drop old.length
    else c :: replaceFirst old new rest

/-- The authenticated clone URL built by `scan_repo`:
`strings.Replace(cloneUrl, "https://", "https://" + pat + "@", 1)`. -/
def auth_clone_url (cloneUrl pat : String) : String :=
  String.mk (replaceFirst ("https://".toList) (("https://" ++ pat ++ "@").toList)
    cloneUrl.toList)

/-! ## Result aggregation

The collection loop at the end of `main`:

```
collected := 0
for {
    repoResult := <-results
    final_results = append(final_results, repoResult)
    collected = collected + 1
    if collected >= len(all_repos) { break }
}
```

The channel receive is modelled by consuming the next element of the
arrival sequence `avail` (every result any scan goroutine will ever
send, in arrival order); a receive with no element left blocks forever,
modelled as `none`.  Note the receive happens before the count check. -/

def collect_loop : List GitleaksRepoResult → Nat → Nat → List GitleaksRepoResult →
    Option (List GitleaksRepoResult)
  | [], _, _, _ => none
  | r :: rest, collected, total, acc =>
    let acc' := acc ++ [r]
    let collected' := collected + 1
    if total ≤ collected' then some acc'
    else collect_loop rest collected' total acc'

/-- The aggregation loop of `main`, started with zero collected results:
given the arrival sequence and the number of dispatched repositories,
returns the collected list, or `none` if the loop blocks forever. -/
def collect_results (avail : List GitleaksRepoResult) (total : Nat) :
    Option (List GitleaksRepoResult) :=
  collect_loop avail 0 total []

theorem collect_loop_exact (avail : List GitleaksRepoResult) :
    ∀ (collected total : Nat) (acc : List GitleaksRepoResult),
      collected < total → collected + avail.length = total →
      collect_loop avail collected total acc = some (acc ++ avail) := by
  induction avail with
  | nil =>
    intro collected total acc hlt hlen
    simp at hlen
    omega
  | cons r rest ih =>
    intro collected total acc hlt hlen
    simp only [collect_loop]
    by_cases hstop : total ≤ collected + 1
    · have hrest : rest.length = 0 := by simp [List.length] at hlen; omega
      have : rest = [] := List.eq_nil_of_length_eq_zero hrest
      subst this
      simp [hstop]
    · rw [if_neg hstop]
      rw [ih (collected + 1) total (acc ++ [r]) (by omega)
        (by simp [List.length] at hlen ⊢; omega)]
      simp

/-- With at least one dispatched repository and exactly one arriving
result per dispatched repository, the loop collects the whole arrival
sequence, in order. -/
theorem collect_results_exact (avail : List GitleaksRepoResult) (total : Nat)
    (hpos : 1 ≤ total) (hlen : avail.length = total) :
    collect_results avail total = some avail := by
  have := collect_loop_exact avail 0 total [] (by omega) (by omega)
  simpa [collect_results] using this

/-- With zero dispatched repositories nothing is ever sent, and the
loop's first receive blocks forever. -/
theorem collect_results_zero : collect_results [] 0 = none := rfl

/-! ## Repository discovery (`get_org_repos`)

```
time_ago := time.Now().AddDate(0, 0, -daysago)
org_repos := make([]*github.Repository, 0)
page := 0
for {
    opt := &github.RepositoryListByOrgOptions{..., ListOptions: github.ListOptions{Page: page}}
    repos, _, err := client.Repositories.ListByOrg(ctx, orgname, opt)
    if err != nil { return nil, err }
    saw_older := false
    for _, repo := range repos {
        if *repo.Archived { continue }
        if repo.PushedAt.Time.Before(time_ago) { saw_older = true; break }
        org_repos = append(org_repos, repo)
    }
    if saw_older { break }
    page = page + 1
}
```

The hosting API is an oracle `api : Nat → Option (List Repo)` giving the
page served for a true page number (`none` models an API error).  The
outer loop can run forever (no break when a page is empty), so it takes
fuel and returns `none` when no bound suffices; it also records the page
numbers it requested. -/

/-- Translation from the `Page` field set by `get_org_repos` to the page
the hosting API serves: the Go client serializes `ListOptions.Page` with
`url:"page,omitempty"`, so a zero page is omitted from the query, and
the API's pagination convention serves the first page (page 1) when the
parameter is absent. -/
def served_page (p : Nat) : Nat := max p 1

/-- The inner `for _, repo := range repos` loop of `get_org_repos`:
returns the repositories appended from this page and the final value of
`saw_older`.  Archived repositories are skipped; the first non-archived
repository pushed strictly before `timeAgo` sets `saw_older` and breaks. -/
def process_page (timeAgo : Int) : List Repo → List Repo × Bool
  | [] => ([], false)
  | r :: rest =>
    if r.archived then process_page timeAgo rest
    else if r.pushedAt < timeAgo then ([], true)
    else
      let p := process_page timeAgo rest
      (r :: p.1, p.2)

/-- The outcome of `get_org_repos` for one organization: the gathered
repositories, or an API error (`return nil, err`). -/
inductive DiscoveryOutcome where
  | ok (repos : List Repo)
  | apiError
deriving DecidableEq, Repr

/-- The outer `for { ... }` loop of `get_org_repos`, with fuel.  Returns
the outcome together with the list of requested page numbers, or `none`
when the loop does not terminate within the fuel. -/
def get_org_repos_loop (api : Nat → Option (List Repo)) (timeAgo : Int) :
    Nat → Nat → List Repo → List Nat → Option (DiscoveryOutcome × List Nat)
  | 0, _, _, _ => none
  | fuel + 1, page, acc, pages =>
    let pages' := pages ++ [page]
    match api (served_page page) with
    | none => some (.apiError, pages')
    | some repos =>
      let pr := process_page timeAgo repos
      let acc' := acc ++ pr.1
      if pr.2 then some (.ok acc', pages')
      else get_org_repos_loop api timeAgo fuel (page + 1) acc' pages'

/-- `get_org_repos(orgname, pat, daysago)` for one organization, the
organization and token being abstracted into the API oracle: starts at
requested page 0 with an empty accumulator. -/
def get_org_repos (api : Nat → Option (List Repo)) (timeAgo : Int) (fuel : Nat) :
    Option (DiscoveryOutcome × List Nat) :=
  get_org_repos_loop api timeAgo fuel 0 [] []

/-- A repository is stale when its last push is strictly before the
cutoff. -/
def stale (timeAgo : Int) (r : Repo) : Bool := r.pushedAt < timeAgo

theorem process_page_archived (timeAgo : Int) (a : Repo) (rest : List Repo)
    (ha : a.archived = true) :
    process_page timeAgo (a :: rest) = process_page timeAgo rest := by
  simp [process_page, ha]

theorem process_page_no_stale (timeAgo : Int) :
    ∀ (l : List Repo),
      (∀ r ∈ l, r.archived = true ∨ ¬ (r.pushedAt < timeAgo)) →
      process_page timeAgo l =
        (l.filter (fun r => ¬ r.archived), false) := by
  intro l
  induction l with
  | nil => intro _; simp [process_page]
  | cons r rest ih =>
    intro h
    have hr := h r (by simp)
    have hrest := ih (fun x hx => h x (by simp [hx]))
    by_cases ha : r.archived = true
    · simp [process_page, ha, hrest, List.filter]
    · have ha' : r.archived = false := by simpa using ha
      have hnp : ¬ (r.pushedAt < timeAgo) := by
        rcases hr with h1 | h2
        · rw [ha'] at h1; exact absurd h1 (by simp)
        · exact h2
      simp [process_page, ha', hnp, hrest, List.filter]

theorem process_page_first_stale (timeAgo : Int) :
    ∀ (pre : List Repo) (s : Repo) (suf : List Repo),
      (∀ r ∈ pre, r.archived = true ∨ ¬ (r.pushedAt < timeAgo)) →
      s.archived = false → s.pushedAt < timeAgo →
      process_page timeAgo (pre ++ s :: suf) =
        (pre.filter (fun r => ¬ r.archived), true) := by
  intro pre
  induction pre with
  | nil =>
    intro s suf _ hs hstale
    simp [process_page, hs, hstale]
  | cons r rest ih =>
    intro s suf h hs hstale
    have hr := h r (by simp)
    have hrest := ih s suf (fun x hx => h x (by simp [hx])) hs hstale
    by_cases ha : r.archived = true
    · simp [process_page, ha, hrest, List.filter]
    · have ha' : r.archived = false := by simpa using ha
      have hnp : ¬ (r.pushedAt < timeAgo) := by
        rcases hr with h1 | h2
        · rw [ha'] at h1; exact absurd h1 (by simp)
        · exact h2
      simp [process_page, ha', hnp, hrest, List.filter]

theorem process_page_not_archived (timeAgo : Int) :
    ∀ (l : List Repo) (r : Repo), r ∈ (process_page timeAgo l).1 →
      r.archived = false := by
  intro l
  induction l with
  | nil => intro r hr; simp [process_page] at hr
  | cons x rest ih =>
    intro r hr
    by_cases ha : x.archived = true
    · rw [process_page_archived timeAgo x rest ha] at hr
      exact ih r hr
    · have ha' : x.archived = false := by simpa using ha
      by_cases hp : x.pushedAt < timeAgo
      · simp [process_page, ha', hp] at hr
      · simp [process_page, ha', hp] at hr
        rcases hr with h1 | h2
        · rw [h1]; exact ha'
        · exact ih r h2

theorem get_org_repos_loop_not_archived (api : Nat → Option (List Repo))
    (timeAgo : Int) :
    ∀ (fuel page : Nat) (acc : List Repo) (pages : List Nat)
      (res : List Repo) (reqPages : List Nat),
      (∀ r ∈ acc, r.archived = false) →
      get_org_repos_loop api timeAgo fuel page acc pages =
        some (.ok res, reqPages) →
      ∀ r ∈ res, r.archived = false := by
  intro fuel
  induction fuel with
  | zero => intro page acc pages res reqPages _ h; simp [get_org_repos_loop] at h
  | succ n ih =>
    intro page acc pages res reqPages hacc h
    simp only [get_org_repos_loop] at h
    cases hapi : api (served_page page) with
    | none => rw [hapi] at h; simp at h
    | some repos =>
      rw [hapi] at h
      simp only at h
      have hkeep : ∀ r ∈ acc ++ (process_page timeAgo repos).1, r.archived = false := by
        intro r hr
        rcases List.mem_append.mp hr with h1 | h2
        · exact hacc r h1
        · exact process_page_not_archived timeAgo repos r h2
      by_cases hsaw : (process_page timeAgo repos).2 = true
      · rw [if_pos hsaw] at h
        have : acc ++ (process_page timeAgo repos).1 = res := by
          have := Option.some.inj h
          exact congrArg Prod.fst this |> fun x => by
            cases this; rfl
        intro r hr
        rw [← this] at hr
        exact hkeep r hr
      · rw [if_neg hsaw] at h
        exact ih (page + 1) _ _ res reqPages hkeep h

/-- The repositories `get_org_repos` keeps from the page it requests
under number `p`: an erroring page contributes nothing here. -/
def page_keeps (api : Nat → Option (List Repo)) (timeAgo : Int) (p : Nat) : List Repo :=
  (process_page timeAgo ((api (served_page p)).getD [])).1

/-- The repositories kept from `k` consecutive requested pages starting
at requested page `page`. -/
def pages_result (api : Nat → Option (List Repo)) (timeAgo : Int) :
    Nat → Nat → List Repo
  | 0, _ => []
  | k + 1, page => page_keeps api timeAgo page ++ pages_result api timeAgo k (page + 1)

/-- `k` consecutive requested page numbers starting at `page`. -/
def pages_requested : Nat → Nat → List Nat
  | 0, _ => []
  | k + 1, page => page :: pages_requested k (page + 1)

theorem get_org_repos_loop_stop_at (api : Nat → Option (List Repo)) (timeAgo : Int) :
    ∀ (k fuel page : Nat) (acc : List Repo) (pages : List Nat),
      k < fuel →
      (∀ j, j < k → ∃ repos, api (served_page (page + j)) = some repos ∧
        (process_page timeAgo repos).2 = false) →
      (∃ repos, api (served_page (page + k)) = some repos ∧
        (process_page timeAgo repos).2 = true) →
      get_org_repos_loop api timeAgo fuel page acc pages =
        some (.ok (acc ++ pages_result api timeAgo (k + 1) page),
              pages ++ pages_requested (k + 1) page) := by
  intro k
  induction k with
  | zero =>
    intro fuel page acc pages hfuel _ hstop
    obtain ⟨repos, hapi, hsaw⟩ := hstop
    obtain ⟨n, rfl⟩ : ∃ n, fuel = n + 1 := ⟨fuel - 1, by omega⟩
    simp only [Nat.add_zero] at hapi
    simp [get_org_repos_loop, hapi, hsaw, pages_result, pages_requested, page_keeps]
  | succ k ih =>
    intro fuel page acc pages hfuel hbefore hstop
    obtain ⟨n, rfl⟩ : ∃ n, fuel = n + 1 := ⟨fuel - 1, by omega⟩
    obtain ⟨repos0, hapi0, hsaw0⟩ := hbefore 0 (by omega)
    simp only [Nat.add_zero] at hapi0
    have hrec := ih n (page + 1) (acc ++ (process_page timeAgo repos0).1)
      (pages ++ [page]) (by omega)
      (fun j hj => by
        have := hbefore (j + 1) (by omega)
        simpa [Nat.add_assoc, Nat.add_comm 1 j] using this)
      (by
        obtain ⟨rk, hk1, hk2⟩ := hstop
        exact ⟨rk, by simpa [Nat.add_assoc, Nat.add_comm 1 k] using hk1, hk2⟩)
    have hcond : ¬ ((process_page timeAgo repos0).2 = true) := by rw [hsaw0]; simp
    simp only [get_org_repos_loop, hapi0, if_neg hcond]
    rw [hrec]
    simp [pages_result, pages_requested, page_keeps, hapi0, List.append_assoc]

/-- When every served page is error-free and never contains a
non-archived stale repository, the discovery loop never terminates,
whatever the fuel: the Go loop keeps requesting further pages forever
(there is no exit for an exhausted listing). -/
theorem get_org_repos_loop_diverges (api : Nat → Option (List Repo)) (timeAgo : Int)
    (hall : ∀ p, ∃ repos, api p = some repos ∧ (process_page timeAgo repos).2 = false) :
    ∀ (fuel page : Nat) (acc : List Repo) (pages : List Nat),
      get_org_repos_loop api timeAgo fuel page acc pages = none := by
  intro fuel
  induction fuel with
  | zero => intro page acc pages; rfl
  | succ n ih =>
    intro page acc pages
    obtain ⟨repos, hapi, hsaw⟩ := hall (served_page page)
    simp only [get_org_repos_loop, hapi]
    rw [if_neg (by simp [hsaw])]
    exact ih (page + 1) _ _

/-! ## Scan executor (`scan_repo`)

`scan_repo(repo, pat, orgname, gl_conf_path, results)` builds a result
record, allocates a temp workspace, clones with an authenticated URL,
runs the scanning tool, reads and parses its output, and on every path
(failure or success) sends exactly one result on the channel.  The
filesystem and subprocess effects are an oracle `ScanEnv`; the sends,
the log lines and the external invocations are collected in a
`ScanOutput`. -/

/-- Externally visible events of one run, used to state what `main`
has and has not done at a given point. -/
inductive MainEffect where
  | confCheck (path : String)
  | fatalAbort
  | patCheck (org : String)
  | apiRequest (org : String) (page : Nat)
  | scanDispatch (repoName : String)
  | cloneInvoke (repoName : String)
  | toolInvoke (repoName : String)
  | reportEmit
deriving DecidableEq, Repr

/-- The effect oracle for one `scan_repo` call: outcome of
`os.MkdirTemp`, of `git clone` (given the URL and destination), of the
`gitleaks` subprocess (given its argument list), of reading the output
file, and of `json.Unmarshal` on its contents. -/
structure ScanEnv where
  mkdirTemp : Except String String
  clone : String → String → Except String Unit
  runGitleaks : List String → Except String Unit
  readFile : String → Except String String
  parseResults : String → Except String (List GitleaksResult)

/-- Everything one `scan_repo` call emits: results sent on the channel,
log lines, and which external commands were invoked. -/
structure ScanOutput where
  sent : List GitleaksRepoResult
  logs : List LogEntry
  invoked : List MainEffect
deriving Inhabited

/-- The `gitleaks` argument list built by `scan_repo`. -/
def gitleaks_args (dir outputpath gl_conf_path : String) : List String :=
  ["detect", "-v", "--no-git", "-f=json", "--exit-code=0",
   "-r=" ++ outputpath, "-c=" ++ gl_conf_path, dir]

/-- The result record `scan_repo` builds before doing any work:
identity fields from the descriptor, no error, no findings yet. -/
def scan_base (repo : Repo) (orgname : String) : GitleaksRepoResult :=
  { Repository := repo.name, URL := repo.url, IsPrivate := repo.isPrivate,
    Org := orgname }

/-- The debug log line `scan_repo` emits once the workspace exists. -/
def tempdir_log (repo : Repo) (dir : String) : LogEntry :=
  { msg := "tempdir set", strs := [("repo", repo.name), ("dir", dir)] }

/-- An error log line of `scan_repo`: attached error plus the repo name. -/
def scan_err_log (repo : Repo) (e msg : String) : LogEntry :=
  { msg := msg, strs := [("repo", repo.name)], err := some e }

/-- Shallow embedding of `scan_repo`.  Each Go early return
`result.Err = err; results <- result; return` becomes a branch whose
`sent` list holds the single result. -/
def scan_repo (repo : Repo) (pat orgname gl_conf_path : String) (env : ScanEnv) :
    ScanOutput :=
  match env.mkdirTemp with
  | .error e =>
    { sent := [{ scan_base repo orgname with Err := some e }],
      logs := [scan_err_log repo e "failed to create temp dir to scan repo"],
      invoked := [] }
  | .ok dir =>
    match env.clone (auth_clone_url repo.cloneUrl pat) dir with
    | .error e =>
      { sent := [{ scan_base repo orgname with Err := some e }],
        logs := [tempdir_log repo dir, scan_err_log repo e "failed to clone repo"],
        invoked := [.cloneInvoke repo.name] }
    | .ok _ =>
      match env.runGitleaks (gitleaks_args dir (dir ++ "/__gitleaks.json") gl_conf_path) with
      | .error e =>
        { sent := [{ scan_base repo orgname with Err := some e }],
          logs := [tempdir_log repo dir,
                   scan_err_log repo e "error running gitleaks on the repo"],
          invoked := [.cloneInvoke repo.name, .toolInvoke repo.name] }
      | .ok _ =>
        match env.readFile (dir ++ "/__gitleaks.json") with
        | .error e =>
          { sent := [{ scan_base repo orgname with Err := some e }],
            logs := [tempdir_log repo dir,
                     scan_err_log repo e "error opening results file"],
            invoked := [.cloneInvoke repo.name, .toolInvoke repo.name] }
        | .ok content =>
          match env.parseResults content with
          | .error e =>
            { sent := [{ scan_base repo orgname with Err := some e }],
              logs := [tempdir_log repo dir,
                       scan_err_log repo e "error unmarshaling gitleaks results"],
              invoked := [.cloneInvoke repo.name, .toolInvoke repo.name] }
          | .ok jsonResults =>
            { sent := [{ scan_base repo orgname with Results := jsonResults, Err := none }],
              logs := [tempdir_log repo dir],
              invoked := [.cloneInvoke repo.name, .toolInvoke repo.name] }

theorem scan_repo_sends_one (repo : Repo) (pat orgname gl_conf_path : String)
    (env : ScanEnv) :
    (scan_repo repo pat orgname gl_conf_path env).sent.length = 1 := by
  unfold scan_repo
  repeat' split
  all_goals rfl

theorem scan_repo_failure_shape (repo : Repo) (pat orgname gl_conf_path : String)
    (env : ScanEnv) (r : GitleaksRepoResult)
    (hr : r ∈ (scan_repo repo pat orgname gl_conf_path env).sent) :
    r.Repository = repo.name ∧ r.URL = repo.url ∧ r.IsPrivate = repo.isPrivate ∧
    r.Org = orgname ∧ (r.Err.isSome → r.Results = []) := by
  unfold scan_repo at hr
  repeat' split at hr
  all_goals simp at hr
  all_goals subst hr
  all_goals simp [scan_base]

/-! ## The `main` pipeline

`main` checks the gitleaks configuration (fatal on failure), resolves a
token per organization from the environment (`PAT_<org>`; resolution
failure skips the organization), discovers repositories per resolved
organization (an API error skips the organization), dispatches one
`scan_repo` goroutine per repository with
`pats[strings.Split(repo.GetFullName(), "/")[0]]` as credential, and
collects results until the collected count reaches the dispatched
count. -/

/-- The fields of the loaded configuration that `main` reads
(`conf.GithubConfig.OrgsToScan`, `conf.GithubConfig.DaysToScan`,
`conf.Output.Format`); the `Conf` type itself lives outside
`cmd/moss/main.go`. -/
structure Conf where
  orgsToScan : List String
  daysToScan : Nat
  outputFormat : String
deriving DecidableEq, Repr

/-- The ambient world `main` runs in: the process environment, the
gitleaks-configuration file content (if readable), the hosting API per
organization and served page, the current time, the configuration, and
the per-repository scan effect oracle. -/
structure World where
  getenv : String → String
  gitleaksFile : Option String
  api : String → Nat → Option (List Repo)
  now : Int
  conf : Conf
  scanEnv : Repo → ScanEnv

/-- The gitleaks configuration path: `MOSS_GITLEAKSCONF` from the
environment, defaulting to `./configs/gitleaks.toml` when empty. -/
def gitleaks_conf_path (getenv : String → String) : String :=
  if getenv "MOSS_GITLEAKSCONF" = "" then "./configs/gitleaks.toml"
  else getenv "MOSS_GITLEAKSCONF"

/-- The credential-resolution loop of `main`: one map entry per
configured organization whose `PAT_<org>` environment variable is
non-empty; missing tokens are skipped.  Modelled as a lookup function
(Go map semantics: later inserts overwrite, the same key holds the same
value here). -/
def build_pats (orgs : List String) (getenv : String → String) :
    String → Option String :=
  orgs.foldl
    (fun m org =>
      if getenv ("PAT_" ++ org) = "" then m
      else Function.update m org (some (getenv ("PAT_" ++ org))))
    (fun _ => none)

/-- The organizations `main`'s discovery loop iterates over: the keys
of the `pats` map.  Go map iteration order is unspecified; a duplicate
configured organization yields a single key.  `List.dedup` is one
linearization of the key set. -/
def resolved_orgs (orgs : List String) (getenv : String → String) : List String :=
  (orgs.filter (fun o => ¬ (getenv ("PAT_" ++ o) = ""))).dedup

/-- The discovery loop of `main`: each organization's repositories are
appended to `all_repos`; an organization whose discovery errors is
logged and skipped.  `none` propagates a `get_org_repos` call that
never terminates (the whole run then never terminates). Also returns
the API request effects made. -/
def discover_all (api : String → Nat → Option (List Repo)) (timeAgo : Int)
    (fuel : Nat) : List String → List Repo → List MainEffect →
    Option (List Repo × List MainEffect)
  | [], acc, effs => some (acc, effs)
  | org :: rest, acc, effs =>
    match get_org_repos (api org) timeAgo fuel with
    | none => none
    | some (.apiError, pages) =>
      discover_all api timeAgo fuel rest acc
        (effs ++ pages.map (MainEffect.apiRequest org))
    | some (.ok repos, pages) =>
      discover_all api timeAgo fuel rest (acc ++ repos)
        (effs ++ pages.map (MainEffect.apiRequest org))

/-- The credential `main` hands to `scan_repo` for one repository:
`pats[strings.Split(repo.GetFullName(), "/")[0]]`, the Go map read
returning the zero value `""` for a missing key. -/
def dispatch_pat (pats : String → Option String) (r : Repo) : String :=
  (pats (beforeSlash r.fullName)).getD ""

/-- One dispatched scan as `main` performs it: token and organization
name both derived from the full-name prefix. -/
def dispatch_scan (pats : String → Option String) (gl_conf_path : String)
    (scanEnv : Repo → ScanEnv) (r : Repo) : ScanOutput :=
  scan_repo r (dispatch_pat pats r) (beforeSlash r.fullName) gl_conf_path (scanEnv r)

/-- The arrival sequence offered to the aggregation loop: every result
any dispatched goroutine ever sends (each sends exactly one), in one
fixed arrival order. -/
def scan_arrivals (pats : String → Option String) (gl_conf_path : String)
    (scanEnv : Repo → ScanEnv) (repos : List Repo) : List GitleaksRepoResult :=
  repos.flatMap (fun r => (dispatch_scan pats gl_conf_path scanEnv r).sent)

/-- Shallow embedding of `main` (after logging setup and configuration
load): returns the run's effect trace and the collected results, or
`none` for the collected results when the run never reaches the report
(fatal configuration abort, a discovery loop that never terminates, or
an aggregation loop that blocks forever). -/
def main_run (fuel : Nat) (w : World) : List MainEffect × Option (List GitleaksRepoResult) :=
  match w.gitleaksFile with
  | none => ([.confCheck (gitleaks_conf_path w.getenv), .fatalAbort], none)
  | some _ =>
    let patEffs := w.conf.orgsToScan.map MainEffect.patCheck
    let pats := build_pats w.conf.orgsToScan w.getenv
    let timeAgo := w.now - (w.conf.daysToScan : Int)
    match discover_all w.api timeAgo fuel (resolved_orgs w.conf.orgsToScan w.getenv) [] [] with
    | none =>
      ([.confCheck (gitleaks_conf_path w.getenv)] ++ patEffs, none)
    | some (all_repos, apiEffs) =>
      let scans := all_repos.map (dispatch_scan pats (gitleaks_conf_path w.getenv) w.scanEnv)
      let effs := [.confCheck (gitleaks_conf_path w.getenv)] ++ patEffs ++ apiEffs ++
        (all_repos.map (fun r => MainEffect.scanDispatch r.name)) ++
        (scans.flatMap (fun s => s.invoked))
      match collect_results
          (scan_arrivals pats (gitleaks_conf_path w.getenv) w.scanEnv all_repos)
          all_repos.length with
      | none => (effs, none)
      | some finals =>
        if w.conf.outputFormat = "json" then (effs ++ [.reportEmit], some finals)
        else (effs, some finals)

theorem build_pats_mem (getenv : String → String) :
    ∀ (orgs : List String) (org : String),
      org ∈ orgs → ¬ (getenv ("PAT_" ++ org) = "") →
      build_pats orgs getenv org = some (getenv ("PAT_" ++ org)) := by
  have key : ∀ (orgs : List String) (m : String → Option String) (org : String),
      (m org = some (getenv ("PAT_" ++ org)) ∨
        (org ∈ orgs ∧ ¬ (getenv ("PAT_" ++ org) = ""))) →
      orgs.foldl
        (fun m org =>
          if getenv ("PAT_" ++ org) = "" then m
          else Function.update m org (some (getenv ("PAT_" ++ org)))) m org =
        some (getenv ("PAT_" ++ org)) := by
    intro orgs
    induction orgs with
    | nil =>
      intro m org h
      rcases h with h | ⟨h1, _⟩
      · simpa using h
      · simp at h1
    | cons o rest ih =>
      intro m org h
      simp only [List.foldl_cons]
      by_cases he : getenv ("PAT_" ++ o) = ""
      · rw [if_pos he]
        apply ih
        rcases h with h | ⟨h1, h2⟩
        · exact Or.inl h
        · rcases List.mem_cons.mp h1 with rfl | hmem
          · exact absurd he h2
          · exact Or.inr ⟨hmem, h2⟩
      · rw [if_neg he]
        apply ih
        by_cases heq : org = o
        · subst heq
          exact Or.inl (by simp [Function.update])
        · rcases h with h | ⟨h1, h2⟩
          · exact Or.inl (by simpa [Function.update, heq] using h)
          · rcases List.mem_cons.mp h1 with h3 | hmem
            · exact absurd h3 heq
            · exact Or.inr ⟨hmem, h2⟩
  intro orgs org h1 h2
  exact key orgs (fun _ => none) org (Or.inr ⟨h1, h2⟩)

theorem build_pats_not_mem (getenv : String → String) :
    ∀ (orgs : List String) (k : String),
      (∀ org ∈ orgs, k ≠ org) →
      build_pats orgs getenv k = none := by
  have key : ∀ (orgs : List String) (m : String → Option String) (k : String),
      m k = none → (∀ org ∈ orgs, k ≠ org) →
      orgs.foldl
        (fun m org =>
          if getenv ("PAT_" ++ org) = "" then m
          else Function.update m org (some (getenv ("PAT_" ++ org)))) m k = none := by
    intro orgs
    induction orgs with
    | nil => intro m k hm _; simpa using hm
    | cons o rest ih =>
      intro m k hm hk
      simp only [List.foldl_cons]
      by_cases he : getenv ("PAT_" ++ o) = ""
      · rw [if_pos he]
        exact ih m k hm (fun org h => hk org (by simp [h]))
      · rw [if_neg he]
        apply ih
        · have : k ≠ o := hk o (by simp)
          simp [Function.update, this, hm]
        · exact fun org h => hk org (by simp [h])
  intro orgs k hk
  exact key orgs (fun _ => none) k rfl hk

/-! ## Concrete sample data

Used to instantiate the claim theorems; the cutoff is always `50`, so a
repository pushed at `100` is recent and one pushed at `0` is stale. -/

/-- A recent, non-archived repository of organization `acme`. -/
def acme_recent : Repo :=
  { name := "r1", fullName := "acme/r1", url := "https://api.github.com/repos/acme/r1",
    cloneUrl := "https://github.com/acme/r1.git", isPrivate := false,
    archived := false, pushedAt := 100 }

/-- A stale (pushed before the cutoff), non-archived repository. -/
def acme_stale : Repo :=
  { name := "r-old", fullName := "acme/r-old", url := "https://api.github.com/repos/acme/r-old",
    cloneUrl := "https://github.com/acme/r-old.git", isPrivate := false,
    archived := false, pushedAt := 0 }

/-- An archived repository whose last push is also before the cutoff. -/
def acme_archived : Repo :=
  { name := "r-arch", fullName := "acme/r-arch", url := "https://api.github.com/repos/acme/r-arch",
    cloneUrl := "https://github.com/acme/r-arch.git", isPrivate := true,
    archived := true, pushedAt := 0 }

/-- A sample collected result. -/
def sample_result : GitleaksRepoResult :=
  { Repository := "r1", URL := "https://api.github.com/repos/acme/r1",
    IsPrivate := false, Org := "acme" }

/-- A hosting API whose served page 1 holds one recent repository and
whose served page 2 holds one stale repository; later pages are empty. -/
def api_dup : Nat → Option (List Repo) := fun p =>
  if p = 1 then some [acme_recent]
  else if p = 2 then some [acme_stale]
  else some []

/-- A hosting API whose served page 1 holds an archived repository
followed by a stale one. -/
def api_arch_first : Nat → Option (List Repo) := fun p =>
  if p = 1 then some [acme_archived, acme_stale] else some []

/-- A hosting API whose served page 2 holds an archived repository
followed by a stale one, after a recent-only page 1. -/
def api_arch_second : Nat → Option (List Repo) := fun p =>
  if p = 1 then some [acme_recent]
  else if p = 2 then some [acme_archived, acme_stale]
  else some []

/-! ## C1 — aggregation counts results against the dispatched total -/

/-- Claim C1: with at least one dispatched repository and exactly one
arriving result per dispatched repository, the aggregation loop collects
exactly the dispatched count, in arrival order, losing and duplicating
nothing; but at zero dispatched repositories the loop's unconditional
first receive blocks forever instead of completing with zero results,
because the count check sits after the receive. -/
theorem claim_C1 :
    (∀ (avail : List GitleaksRepoResult) (total : Nat),
      1 ≤ total → avail.length = total → collect_results avail total = some avail) ∧
    collect_results [] 0 = none := by
  constructor
  · intro avail total hpos hlen
    exact collect_results_exact avail total hpos hlen
  · exact collect_results_zero

/-- Witness for C1 at a one-element arrival sequence and at the
zero-dispatch deadlock. -/
theorem claim_C1_witness :
    collect_results [sample_result] 1 = some [sample_result] ∧
    collect_results [] 0 = none :=
  ⟨claim_C1.1 [sample_result] 1 (by decide) (by decide), claim_C1.2⟩

/-! ## C4 — first-page duplication -/

/-- Claim C4 fails on the code: `get_org_repos` starts its page counter
at 0 and increments it, but the Go client omits a zero page from the
query (`url:"page,omitempty"`) so requested pages 0 and 1 both serve
page 1; when discovery continues past the first fetch, every repository
of served page 1 enters the output twice. -/
theorem claim_C4 :
    get_org_repos api_dup 50 5 = some (.ok [acme_recent, acme_recent], [0, 1, 2]) ∧
    served_page 0 = served_page 1 ∧
    api_dup (served_page 0) = some [acme_recent] := by
  refine ⟨?_, rfl, rfl⟩
  decide

/-! ## C3 — discovery stops at the first non-archived stale repository -/

/-- Counterexample to C3 as stated: on the stopping page, an archived
repository fetched before the first stale one is not included in the
returned sequence (archived repositories are skipped), so "every
repository fetched on that page before the stale one is included" fails.
Here served page 1 is `[acme_archived, acme_stale]` and discovery
returns the empty sequence. -/
theorem claim_C3_counterexample :
    api_arch_first (served_page 0) = some [acme_archived, acme_stale] ∧
    acme_archived.pushedAt < 50 ∧
    get_org_repos api_arch_first 50 5 = some (.ok [], [0]) := by
  refine ⟨rfl, by decide, ?_⟩
  decide

theorem pages_result_snoc (api : Nat → Option (List Repo)) (timeAgo : Int) :
    ∀ (k page : Nat),
      pages_result api timeAgo (k + 1) page =
        pages_result api timeAgo k page ++ page_keeps api timeAgo (page + k) := by
  intro k
  induction k with
  | zero => intro page; simp [pages_result]
  | succ k ih =>
    intro page
    calc pages_result api timeAgo (k + 1 + 1) page
        = page_keeps api timeAgo page ++ pages_result api timeAgo (k + 1) (page + 1) := rfl
      _ = page_keeps api timeAgo page ++
            (pages_result api timeAgo k (page + 1) ++ page_keeps api timeAgo (page + 1 + k)) := by
          rw [ih]
      _ = (page_keeps api timeAgo page ++ pages_result api timeAgo k (page + 1)) ++
            page_keeps api timeAgo (page + (k + 1)) := by
          rw [show page + (k + 1) = page + 1 + k from by omega, List.append_assoc]
      _ = pages_result api timeAgo (k + 1) page ++ page_keeps api timeAgo (page + (k + 1)) := rfl

/-- Claim C3, amended: when requested pages before `k` never carry a
non-archived stale repository and requested page `k` serves
`pre ++ stale :: suf` with everything in `pre` archived or recent and
`stale` non-archived and strictly older than the cutoff, discovery
returns the keeps of the earlier pages followed by exactly the
non-archived repositories of `pre` — every *non-archived* repository
fetched on that page before the stale one — excluding the stale
repository and everything after it, and the requested pages are exactly
`0..k`: no further page is fetched. -/
theorem claim_C3 (api : Nat → Option (List Repo)) (timeAgo : Int)
    (k fuel : Nat) (pre suf : List Repo) (s : Repo)
    (hfuel : k < fuel)
    (hbefore : ∀ j, j < k → ∃ repos, api (served_page j) = some repos ∧
      (process_page timeAgo repos).2 = false)
    (hpage : api (served_page k) = some (pre ++ s :: suf))
    (hpre : ∀ r ∈ pre, r.archived = true ∨ ¬ (r.pushedAt < timeAgo))
    (hs : s.archived = false) (hstale : s.pushedAt < timeAgo) :
    get_org_repos api timeAgo fuel =
      some (.ok (pages_result api timeAgo k 0 ++ pre.filter (fun r => ¬ r.archived)),
            pages_requested (k + 1) 0) := by
  have hstop : ∃ repos, api (served_page (0 + k)) = some repos ∧
      (process_page timeAgo repos).2 = true := by
    refine ⟨pre ++ s :: suf, by simpa using hpage, ?_⟩
    rw [process_page_first_stale timeAgo pre s suf hpre hs hstale]
  have h := get_org_repos_loop_stop_at api timeAgo k fuel 0 [] [] hfuel
    (by simpa using hbefore) hstop
  rw [get_org_repos, h]
  rw [pages_result_snoc]
  simp only [Nat.zero_add, List.nil_append]
  congr 2
  unfold page_keeps
  rw [hpage]
  simp only [Option.getD_some]
  rw [process_page_first_stale timeAgo pre s suf hpre hs hstale]

/-- Witness for C3 at `api_arch_second`: pages 0 and 1 both serve the
recent-only page 1 (hence the duplicate), page 2 carries an archived
repository and then the stale one; only the non-archived repositories
before the stale one are kept and exactly pages 0, 1, 2 are requested. -/
theorem claim_C3_witness :
    get_org_repos api_arch_second 50 4 =
      some (.ok [acme_recent, acme_recent], [0, 1, 2]) := by
  rw [claim_C3 api_arch_second 50 2 4 [acme_archived] [] acme_stale
    (by decide)
    (by decide)
    (by decide)
    (by decide)
    (by decide) (by decide)]
  decide

/-! ## C2 — termination of the whole run -/

/-- A scan environment in which every step succeeds and the scanner
reports no findings. -/
def env_all_ok : ScanEnv :=
  { mkdirTemp := .ok "/tmp/moss_1", clone := fun _ _ => .ok (),
    runGitleaks := fun _ => .ok (), readFile := fun _ => .ok "[]",
    parseResults := fun _ => .ok [] }

/-- A world in which organization `acme` resolves a token and all of its
non-archived repositories were pushed within the recency window: served
page 1 holds one recent repository, every later page is empty, the API
never errors. -/
def world_all_recent : World :=
  { getenv := fun s => if s = "PAT_acme" then "tok" else "",
    gitleaksFile := some "rules",
    api := fun _ p => if p = 1 then some [acme_recent] else some [],
    now := 100,
    conf := { orgsToScan := ["acme"], daysToScan := 7, outputFormat := "json" },
    scanEnv := fun _ => env_all_ok }

theorem main_run_discovery_diverges (fuel : Nat) (w : World) (c : String)
    (hgl : w.gitleaksFile = some c)
    (hdisc : discover_all w.api (w.now - (w.conf.daysToScan : Int)) fuel
      (resolved_orgs w.conf.orgsToScan w.getenv) [] [] = none) :
    (main_run fuel w).2 = none := by
  unfold main_run
  simp [hgl, hdisc]

/-- Claim C2 fails on the code: in `world_all_recent` (an input
configuration the claim explicitly covers) `get_org_repos` never sees a
non-archived repository older than the cutoff, and its paging loop has
no exit for an exhausted listing, so discovery — and with it `main` —
never terminates and no report is ever produced, for every fuel bound. -/
theorem claim_C2 :
    ∀ fuel : Nat, (main_run fuel world_all_recent).2 = none := by
  intro fuel
  have hall : ∀ p, ∃ repos, world_all_recent.api "acme" p = some repos ∧
      (process_page (world_all_recent.now - (world_all_recent.conf.daysToScan : Int))
        repos).2 = false := by
    intro p
    by_cases hp : p = 1
    · subst hp
      exact ⟨[acme_recent], rfl, by decide⟩
    · refine ⟨[], ?_, by decide⟩
      show (if p = 1 then some [acme_recent] else some []) = some []
      rw [if_neg hp]
  have hdiv : get_org_repos (world_all_recent.api "acme")
      (world_all_recent.now - (world_all_recent.conf.daysToScan : Int)) fuel = none :=
    get_org_repos_loop_diverges _ _ hall fuel 0 [] []
  have hres : resolved_orgs world_all_recent.conf.orgsToScan world_all_recent.getenv =
      ["acme"] := by decide
  have hdisc : discover_all world_all_recent.api
      (world_all_recent.now - (world_all_recent.conf.daysToScan : Int)) fuel
      (resolved_orgs world_all_recent.conf.orgsToScan world_all_recent.getenv) [] [] =
      none := by
    rw [hres]
    unfold discover_all
    rw [hdiv]
  exact main_run_discovery_diverges fuel world_all_recent "rules" rfl hdisc

/-! ## Branch equations for `scan_repo` -/

theorem scan_repo_mkdir_err (repo : Repo) (pat orgname gl_conf_path : String)
    (env : ScanEnv) (e : String) (h : env.mkdirTemp = .error e) :
    scan_repo repo pat orgname gl_conf_path env =
      { sent := [{ scan_base repo orgname with Err := some e }],
        logs := [scan_err_log repo e "failed to create temp dir to scan repo"],
        invoked := [] } := by
  simp only [scan_repo, h]

theorem scan_repo_clone_err (repo : Repo) (pat orgname gl_conf_path : String)
    (env : ScanEnv) (dir e : String) (h1 : env.mkdirTemp = .ok dir)
    (h2 : env.clone (auth_clone_url repo.cloneUrl pat) dir = .error e) :
    scan_repo repo pat orgname gl_conf_path env =
      { sent := [{ scan_base repo orgname with Err := some e }],
        logs := [tempdir_log repo dir, scan_err_log repo e "failed to clone repo"],
        invoked := [.cloneInvoke repo.name] } := by
  simp only [scan_repo, h1, h2]

theorem scan_repo_tool_err (repo : Repo) (pat orgname gl_conf_path : String)
    (env : ScanEnv) (dir e : String) (u : Unit) (h1 : env.mkdirTemp = .ok dir)
    (h2 : env.clone (auth_clone_url repo.cloneUrl pat) dir = .ok u)
    (h3 : env.runGitleaks (gitleaks_args dir (dir ++ "/__gitleaks.json") gl_conf_path) =
      .error e) :
    scan_repo repo pat orgname gl_conf_path env =
      { sent := [{ scan_base repo orgname with Err := some e }],
        logs := [tempdir_log repo dir,
                 scan_err_log repo e "error running gitleaks on the repo"],
        invoked := [.cloneInvoke repo.name, .toolInvoke repo.name] } := by
  simp only [scan_repo, h1, h2, h3]

theorem scan_repo_read_err (repo : Repo) (pat orgname gl_conf_path : String)
    (env : ScanEnv) (dir e : String) (u u' : Unit) (h1 : env.mkdirTemp = .ok dir)
    (h2 : env.clone (auth_clone_url repo.cloneUrl pat) dir = .ok u)
    (h3 : env.runGitleaks (gitleaks_args dir (dir ++ "/__gitleaks.json") gl_conf_path) =
      .ok u')
    (h4 : env.readFile (dir ++ "/__gitleaks.json") = .error e) :
    scan_repo repo pat orgname gl_conf_path env =
      { sent := [{ scan_base repo orgname with Err := some e }],
        logs := [tempdir_log repo dir, scan_err_log repo e "error opening results file"],
        invoked := [.cloneInvoke repo.name, .toolInvoke repo.name] } := by
  simp only [scan_repo, h1, h2, h3, h4]

theorem scan_repo_parse_err (repo : Repo) (pat orgname gl_conf_path : String)
    (env : ScanEnv) (dir content e : String) (u u' : Unit)
    (h1 : env.mkdirTemp = .ok dir)
    (h2 : env.clone (auth_clone_url repo.cloneUrl pat) dir = .ok u)
    (h3 : env.runGitleaks (gitleaks_args dir (dir ++ "/__gitleaks.json") gl_conf_path) =
      .ok u')
    (h4 : env.readFile (dir ++ "/__gitleaks.json") = .ok content)
    (h5 : env.parseResults content = .error e) :
    scan_repo repo pat orgname gl_conf_path env =
      { sent := [{ scan_base repo orgname with Err := some e }],
        logs := [tempdir_log repo dir,
                 scan_err_log repo e "error unmarshaling gitleaks results"],
        invoked := [.cloneInvoke repo.name, .toolInvoke repo.name] } := by
  simp only [scan_repo, h1, h2, h3, h4, h5]

theorem scan_repo_success (repo : Repo) (pat orgname gl_conf_path : String)
    (env : ScanEnv) (dir content : String) (rs : List GitleaksResult) (u u' : Unit)
    (h1 : env.mkdirTemp = .ok dir)
    (h2 : env.clone (auth_clone_url repo.cloneUrl pat) dir = .ok u)
    (h3 : env.runGitleaks (gitleaks_args dir (dir ++ "/__gitleaks.json") gl_conf_path) =
      .ok u')
    (h4 : env.readFile (dir ++ "/__gitleaks.json") = .ok content)
    (h5 : env.parseResults content = .ok rs) :
    scan_repo repo pat orgname gl_conf_path env =
      { sent := [{ scan_base repo orgname with Results := rs, Err := none }],
        logs := [tempdir_log repo dir],
        invoked := [.cloneInvoke repo.name, .toolInvoke repo.name] } := by
  simp only [scan_repo, h1, h2, h3, h4, h5]

/-! ## C5 — the scan executor sends exactly one result on every path -/

/-- Claim C5: on every execution path — workspace-allocation failure,
clone failure, tool-invocation failure, output read failure, parse
failure, success — `scan_repo` sends exactly one Scan Result; each
failure is captured in the result's error field and the remaining steps
are skipped (visible in the `invoked` trace: a failed step is the last
external invocation). -/
theorem claim_C5 (repo : Repo) (pat orgname gl_conf_path : String) (env : ScanEnv) :
    (scan_repo repo pat orgname gl_conf_path env).sent.length = 1 ∧
    (∀ e, env.mkdirTemp = .error e →
      scan_repo repo pat orgname gl_conf_path env =
        { sent := [{ scan_base repo orgname with Err := some e }],
          logs := [scan_err_log repo e "failed to create temp dir to scan repo"],
          invoked := [] }) ∧
    (∀ dir e, env.mkdirTemp = .ok dir →
      env.clone (auth_clone_url repo.cloneUrl pat) dir = .error e →
      scan_repo repo pat orgname gl_conf_path env =
        { sent := [{ scan_base repo orgname with Err := some e }],
          logs := [tempdir_log repo dir, scan_err_log repo e "failed to clone repo"],
          invoked := [.cloneInvoke repo.name] }) ∧
    (∀ dir e u, env.mkdirTemp = .ok dir →
      env.clone (auth_clone_url repo.cloneUrl pat) dir = .ok u →
      env.runGitleaks (gitleaks_args dir (dir ++ "/__gitleaks.json") gl_conf_path) =
        .error e →
      scan_repo repo pat orgname gl_conf_path env =
        { sent := [{ scan_base repo orgname with Err := some e }],
          logs := [tempdir_log repo dir,
                   scan_err_log repo e "error running gitleaks on the repo"],
          invoked := [.cloneInvoke repo.name, .toolInvoke repo.name] }) ∧
    (∀ dir e u u', env.mkdirTemp = .ok dir →
      env.clone (auth_clone_url repo.cloneUrl pat) dir = .ok u →
      env.runGitleaks (gitleaks_args dir (dir ++ "/__gitleaks.json") gl_conf_path) =
        .ok u' →
      env.readFile (dir ++ "/__gitleaks.json") = .error e →
      scan_repo repo pat orgname gl_conf_path env =
        { sent := [{ scan_base repo orgname with Err := some e }],
          logs := [tempdir_log repo dir, scan_err_log repo e "error opening results file"],
          invoked := [.cloneInvoke repo.name, .toolInvoke repo.name] }) ∧
    (∀ dir content e u u', env.mkdirTemp = .ok dir →
      env.clone (auth_clone_url repo.cloneUrl pat) dir = .ok u →
      env.runGitleaks (gitleaks_args dir (dir ++ "/__gitleaks.json") gl_conf_path) =
        .ok u' →
      env.readFile (dir ++ "/__gitleaks.json") = .ok content →
      env.parseResults content = .error e →
      scan_repo repo pat orgname gl_conf_path env =
        { sent := [{ scan_base repo orgname with Err := some e }],
          logs := [tempdir_log repo dir,
                   scan_err_log repo e "error unmarshaling gitleaks results"],
          invoked := [.cloneInvoke repo.name, .toolInvoke repo.name] }) ∧
    (∀ dir content rs u u', env.mkdirTemp = .ok dir →
      env.clone (auth_clone_url repo.cloneUrl pat) dir = .ok u →
      env.runGitleaks (gitleaks_args dir (dir ++ "/__gitleaks.json") gl_conf_path) =
        .ok u' →
      env.readFile (dir ++ "/__gitleaks.json") = .ok content →
      env.parseResults content = .ok rs →
      scan_repo repo pat orgname gl_conf_path env =
        { sent := [{ scan_base repo orgname with Results := rs, Err := none }],
          logs := [tempdir_log repo dir],
          invoked := [.cloneInvoke repo.name, .toolInvoke repo.name] }) := by
  refine ⟨scan_repo_sends_one repo pat orgname gl_conf_path env, ?_, ?_, ?_, ?_, ?_, ?_⟩
  · intro e h
    exact scan_repo_mkdir_err repo pat orgname gl_conf_path env e h
  · intro dir e h1 h2
    exact scan_repo_clone_err repo pat orgname gl_conf_path env dir e h1 h2
  · intro dir e u h1 h2 h3
    exact scan_repo_tool_err repo pat orgname gl_conf_path env dir e u h1 h2 h3
  · intro dir e u u' h1 h2 h3 h4
    exact scan_repo_read_err repo pat orgname gl_conf_path env dir e u u' h1 h2 h3 h4
  · intro dir content e u u' h1 h2 h3 h4 h5
    exact scan_repo_parse_err repo pat orgname gl_conf_path env dir content e u u' h1 h2 h3 h4 h5
  · intro dir content rs u u' h1 h2 h3 h4 h5
    exact scan_repo_success repo pat orgname gl_conf_path env dir content rs u u' h1 h2 h3 h4 h5

/-- A scan environment whose clone step fails with a process-level
error (the only information `cmd.Run()` carries). -/
def env_clone_fail : ScanEnv :=
  { mkdirTemp := .ok "/tmp/moss_1", clone := fun _ _ => .error "exit status 128",
    runGitleaks := fun _ => .ok (), readFile := fun _ => .ok "[]",
    parseResults := fun _ => .ok [] }

/-- Witness for C5: the clone-failure path on a concrete repository and
environment sends exactly one result carrying the clone error. -/
theorem claim_C5_witness :
    (scan_repo acme_recent "tok" "acme" "./configs/gitleaks.toml" env_clone_fail).sent.length = 1 ∧
    scan_repo acme_recent "tok" "acme" "./configs/gitleaks.toml" env_clone_fail =
      { sent := [{ scan_base acme_recent "acme" with Err := some "exit status 128" }],
        logs := [tempdir_log acme_recent "/tmp/moss_1",
                 scan_err_log acme_recent "exit status 128" "failed to clone repo"],
        invoked := [.cloneInvoke acme_recent.name] } := by
  have h := claim_C5 acme_recent "tok" "acme" "./configs/gitleaks.toml" env_clone_fail
  exact ⟨h.1, h.2.2.1 "/tmp/moss_1" "exit status 128" rfl rfl⟩

/-! ## C8 — clone failure is contained to its own repository -/

theorem scan_arrivals_length (pats : String → Option String) (gl : String)
    (envs : Repo → ScanEnv) :
    ∀ repos : List Repo, (scan_arrivals pats gl envs repos).length = repos.length := by
  intro repos
  induction repos with
  | nil => rfl
  | cons r rest ih =>
    have h1 : (dispatch_scan pats gl envs r).sent.length = 1 :=
      scan_repo_sends_one r (dispatch_pat pats r) (beforeSlash r.fullName) gl (envs r)
    simp only [scan_arrivals, List.flatMap_cons, List.length_append, List.length_cons] at *
    omega

/-- Claim C8: when the clone step fails for a repository, `scan_repo`
sends exactly one result whose error field is non-empty and whose
findings sequence is empty; and the aggregation over any dispatched
set containing other repositories still collects every repository's own
result — each scan depends only on its own descriptor and effect
oracle, so one clone failure cannot prevent another repository's
result. -/
theorem claim_C8 (repo : Repo) (pat orgname gl_conf_path : String) (env : ScanEnv)
    (dir e : String)
    (hmk : env.mkdirTemp = .ok dir)
    (hclone : env.clone (auth_clone_url repo.cloneUrl pat) dir = .error e) :
    (scan_repo repo pat orgname gl_conf_path env).sent =
      [{ scan_base repo orgname with Err := some e }] ∧
    (∀ r ∈ (scan_repo repo pat orgname gl_conf_path env).sent,
      r.Err.isSome = true ∧ r.Results = []) ∧
    (∀ (pats : String → Option String) (envs : Repo → ScanEnv)
       (repos : List Repo) (other : Repo), other ∈ repos →
      collect_results (scan_arrivals pats gl_conf_path envs repos) repos.length =
        some (scan_arrivals pats gl_conf_path envs repos) ∧
      ∀ x ∈ (dispatch_scan pats gl_conf_path envs other).sent,
        x ∈ scan_arrivals pats gl_conf_path envs repos) := by
  have hout := scan_repo_clone_err repo pat orgname gl_conf_path env dir e hmk hclone
  refine ⟨by rw [hout], ?_, ?_⟩
  · intro r hr
    rw [hout] at hr
    simp at hr
    subst hr
    simp [scan_base]
  · intro pats envs repos other hother
    constructor
    · apply collect_results_exact
      · have : repos ≠ [] := List.ne_nil_of_mem hother
        have := List.length_pos.mpr this
        omega
      · exact scan_arrivals_length pats gl_conf_path envs repos
    · intro x hx
      unfold scan_arrivals
      exact List.mem_flatMap.mpr ⟨other, hother, hx⟩

/-- Witness for C8: a concrete clone failure next to a concrete healthy
repository; both results survive aggregation. -/
theorem claim_C8_witness :
    (scan_repo acme_recent "tok" "acme" "./configs/gitleaks.toml" env_clone_fail).sent =
      [{ scan_base acme_recent "acme" with Err := some "exit status 128" }] ∧
    (∀ r ∈ (scan_repo acme_recent "tok" "acme" "./configs/gitleaks.toml" env_clone_fail).sent,
      r.Err.isSome = true ∧ r.Results = []) := by
  have h := claim_C8 acme_recent "tok" "acme" "./configs/gitleaks.toml" env_clone_fail
    "/tmp/moss_1" "exit status 128" rfl rfl
  exact ⟨h.1, h.2.1⟩

/-! ## C6 — an unreadable rule-configuration file aborts before scanning -/

/-- Claim C6: when the gitleaks configuration file cannot be read, the
run performs the configuration check, aborts fatally, and produces
nothing else: its effect trace contains no API request, no scan
dispatch, no clone and no scanner invocation, and no report is
produced. -/
theorem claim_C6 (fuel : Nat) (w : World) (hgl : w.gitleaksFile = none) :
    main_run fuel w =
      ([.confCheck (gitleaks_conf_path w.getenv), .fatalAbort], none) ∧
    (∀ org p, MainEffect.apiRequest org p ∉ (main_run fuel w).1) ∧
    (∀ n, MainEffect.scanDispatch n ∉ (main_run fuel w).1) ∧
    (∀ n, MainEffect.cloneInvoke n ∉ (main_run fuel w).1) ∧
    (∀ n, MainEffect.toolInvoke n ∉ (main_run fuel w).1) := by
  have h : main_run fuel w =
      ([.confCheck (gitleaks_conf_path w.getenv), .fatalAbort], none) := by
    unfold main_run
    simp [hgl]
  refine ⟨h, ?_, ?_, ?_, ?_⟩ <;>
    · intros
      rw [h]
      simp

/-- A world whose gitleaks configuration path names an unreadable
file. -/
def world_no_conf : World :=
  { getenv := fun _ => "", gitleaksFile := none,
    api := fun _ p => if p = 1 then some [acme_recent] else some [],
    now := 100,
    conf := { orgsToScan := ["acme"], daysToScan := 7, outputFormat := "json" },
    scanEnv := fun _ => env_all_ok }

/-- Witness for C6 at a concrete world. -/
theorem claim_C6_witness :
    main_run 3 world_no_conf =
      ([.confCheck "./configs/gitleaks.toml", .fatalAbort], none) ∧
    MainEffect.apiRequest "acme" 1 ∉ (main_run 3 world_no_conf).1 ∧
    MainEffect.scanDispatch "r1" ∉ (main_run 3 world_no_conf).1 ∧
    MainEffect.cloneInvoke "r1" ∉ (main_run 3 world_no_conf).1 ∧
    MainEffect.toolInvoke "r1" ∉ (main_run 3 world_no_conf).1 := by
  have h := claim_C6 3 world_no_conf rfl
  refine ⟨?_, h.2.1 "acme" 1, h.2.2.1 "r1", h.2.2.2.1 "r1", h.2.2.2.2 "r1"⟩
  rw [h.1]
  rfl

/-! ## C10 — the dispatched credential is the map entry of the
full-name prefix -/

/-- Claim C10: `main` passes `pats[strings.Split(full_name, "/")[0]]` to
`scan_repo`.  When the prefix before the first slash is exactly a
configured organization name with a resolvable token, the dispatched
credential is that organization's token — the same map entry discovery
used; when the prefix matches no configured organization (e.g. it
differs in letter case), the map read yields the zero value and the
clone runs unauthenticated with the empty string. -/
theorem claim_C10 (orgs : List String) (getenv : String → String) (r : Repo) :
    (∀ org, beforeSlash r.fullName = org → org ∈ orgs →
      ¬ (getenv ("PAT_" ++ org) = "") →
      build_pats orgs getenv org = some (getenv ("PAT_" ++ org)) ∧
      dispatch_pat (build_pats orgs getenv) r = getenv ("PAT_" ++ org)) ∧
    ((∀ org ∈ orgs, beforeSlash r.fullName ≠ org) →
      dispatch_pat (build_pats orgs getenv) r = "") := by
  constructor
  · intro org heq hmem hne
    have h := build_pats_mem getenv orgs org hmem hne
    refine ⟨h, ?_⟩
    unfold dispatch_pat
    rw [heq, h]
    rfl
  · intro hall
    have h := build_pats_not_mem getenv orgs (beforeSlash r.fullName) hall
    unfold dispatch_pat
    rw [h]
    rfl

/-- The environment of the C10 witness: only `PAT_acme` is set. -/
def getenv_acme : String → String := fun s => if s = "PAT_acme" then "tok" else ""

/-- A repository whose full-name prefix differs from the configured
organization name only by letter case. -/
def repo_mixed_case : Repo := { acme_recent with fullName := "Acme/r1" }

/-- Witness for C10: the matching prefix receives the organization's
token, the case-mismatched prefix receives the empty string. -/
theorem claim_C10_witness :
    dispatch_pat (build_pats ["acme"] getenv_acme) acme_recent = "tok" ∧
    dispatch_pat (build_pats ["acme"] getenv_acme) repo_mixed_case = "" := by
  constructor
  · have h := (claim_C10 ["acme"] getenv_acme acme_recent).1 "acme"
      (by decide) (by decide) (by decide)
    rw [h.2]
    rfl
  · exact (claim_C10 ["acme"] getenv_acme repo_mixed_case).2 (by decide)

/-! ## C9 — the token never reaches a result or a log line -/

theorem isPrefixOf_exists : ∀ (p l : List Char), p.isPrefixOf l = true → ∃ t, l = p ++ t := by
  intro p
  induction p with
  | nil => intro l _; exact ⟨l, rfl⟩
  | cons c cs ih =>
    intro l h
    cases l with
    | nil => simp [List.isPrefixOf] at h
    | cons d ds =>
      simp only [List.isPrefixOf, Bool.and_eq_true, beq_iff_eq] at h
      obtain ⟨hcd, h2⟩ := h
      subst hcd
      obtain ⟨t, ht⟩ := ih ds h2
      exact ⟨t, by rw [ht]; rfl⟩

theorem replaceFirst_append_self (old new rest : List Char) (hne : old ≠ []) :
    replaceFirst old new (old ++ rest) = new ++ rest := by
  cases old with
  | nil => exact absurd rfl hne
  | cons c cs =>
    have hpre : (c :: cs).isPrefixOf (c :: (cs ++ rest)) = true :=
      isPrefixOf_append_self (c :: cs) rest
    show replaceFirst (c :: cs) new (c :: (cs ++ rest)) = new ++ rest
    unfold replaceFirst
    rw [if_pos hpre]
    congr 1
    rw [List.length_cons, List.drop_succ_cons]
    exact List.drop_left cs rest

/-- When the clone URL starts with `https://`, the authenticated clone
URL built by `scan_repo` does contain the token — the token is used, it
just never flows anywhere else. -/
theorem auth_clone_url_contains (cloneUrl pat : String)
    (h : "https://".toList.isPrefixOf cloneUrl.toList = true) :
    containsToken pat (auth_clone_url cloneUrl pat) = true := by
  obtain ⟨rest, hrest⟩ := isPrefixOf_exists _ _ h
  unfold containsToken auth_clone_url
  rw [hrest]
  rw [replaceFirst_append_self _ _ _ (by decide)]
  show listContains pat.toList (("https://" ++ pat ++ "@").toList ++ rest) = true
  have hsplit : ("https://" ++ pat ++ "@").toList =
      ("https://".toList ++ pat.toList) ++ "@".toList := by
    show (("https://" ++ pat) ++ "@").data = _
    rw [String.data_append, String.data_append]
    rfl
  rw [hsplit, List.append_assoc ("https://".toList ++ pat.toList) "@".toList rest]
  exact listContains_append_self pat.toList "https://".toList ("@".toList ++ rest)

/-- No field value of the scan result contains the token. -/
def result_clean (pat : String) (r : GitleaksRepoResult) : Prop :=
  containsToken pat r.Repository = false ∧ containsToken pat r.URL = false ∧
  containsToken pat r.Org = false ∧
  (∀ e, r.Err = some e → containsToken pat e = false) ∧
  (∀ f ∈ r.Results, containsToken pat f.raw = false)

/-- No logged field value or logged error contains the token. -/
def log_clean (pat : String) (L : LogEntry) : Prop :=
  (∀ kv ∈ L.strs, containsToken pat kv.2 = false) ∧
  (∀ e, L.err = some e → containsToken pat e = false)

/-- Claim C9: the token is spliced into the authenticated clone URL and
nowhere else.  Provided the token does not occur in the descriptor's
fields nor in any string the effect oracles hand back (workspace paths,
process-level error messages, parsed findings — none of which the code
builds from the token), no field of the sent Scan Result and no logged
value contains the token, while the clone URL passed to the clone
collaborator does contain it. -/
theorem claim_C9 (repo : Repo) (pat orgname gl_conf_path : String) (env : ScanEnv)
    (hname : containsToken pat repo.name = false)
    (hurl : containsToken pat repo.url = false)
    (horg : containsToken pat orgname = false)
    (hmkerr : ∀ e, env.mkdirTemp = .error e → containsToken pat e = false)
    (hmkok : ∀ dir, env.mkdirTemp = .ok dir → containsToken pat dir = false)
    (hclerr : ∀ u d e, env.clone u d = .error e → containsToken pat e = false)
    (hrgerr : ∀ args e, env.runGitleaks args = .error e → containsToken pat e = false)
    (hrderr : ∀ p e, env.readFile p = .error e → containsToken pat e = false)
    (hpserr : ∀ c e, env.parseResults c = .error e → containsToken pat e = false)
    (hpsok : ∀ c rs, env.parseResults c = .ok rs →
      ∀ f ∈ rs, containsToken pat f.raw = false) :
    (∀ r ∈ (scan_repo repo pat orgname gl_conf_path env).sent, result_clean pat r) ∧
    (∀ L ∈ (scan_repo repo pat orgname gl_conf_path env).logs, log_clean pat L) ∧
    ("https://".toList.isPrefixOf repo.cloneUrl.toList = true →
      containsToken pat (auth_clone_url repo.cloneUrl pat) = true) := by
  have key : (∀ r ∈ (scan_repo repo pat orgname gl_conf_path env).sent,
      result_clean pat r) ∧
      (∀ L ∈ (scan_repo repo pat orgname gl_conf_path env).logs, log_clean pat L) := by
    cases hmk : env.mkdirTemp with
    | error e =>
      rw [scan_repo_mkdir_err repo pat orgname gl_conf_path env e hmk]
      constructor
      · intro r hr
        simp only [List.mem_singleton] at hr
        subst hr
        refine ⟨hname, hurl, horg, ?_, ?_⟩
        · intro e' he'
          simp [scan_base] at he'
          subst he'
          exact hmkerr e hmk
        · simp [scan_base]
      · intro L hL
        simp only [List.mem_singleton] at hL
        subst hL
        refine ⟨?_, ?_⟩
        · intro kv hkv
          simp [scan_err_log] at hkv
          subst hkv
          exact hname
        · intro e' he'
          simp [scan_err_log] at he'
          subst he'
          exact hmkerr e hmk
    | ok dir =>
      have hdir := hmkok dir hmk
      cases hcl : env.clone (auth_clone_url repo.cloneUrl pat) dir with
      | error e =>
        rw [scan_repo_clone_err repo pat orgname gl_conf_path env dir e hmk hcl]
        constructor
        · intro r hr
          simp only [List.mem_singleton] at hr
          subst hr
          refine ⟨hname, hurl, horg, ?_, ?_⟩
          · intro e' he'
            simp [scan_base] at he'
            subst he'
            exact hclerr _ _ e hcl
          · simp [scan_base]
        · intro L hL
          simp at hL
          rcases hL with hL | hL
          all_goals subst hL
          · refine ⟨?_, ?_⟩
            · intro kv hkv
              simp [tempdir_log] at hkv
              rcases hkv with hkv | hkv
              all_goals subst hkv
              · exact hname
              · exact hdir
            · intro e' he'
              simp [tempdir_log] at he'
          · refine ⟨?_, ?_⟩
            · intro kv hkv
              simp [scan_err_log] at hkv
              subst hkv
              exact hname
            · intro e' he'
              simp [scan_err_log] at he'
              subst he'
              exact hclerr _ _ e hcl
      | ok u =>
        cases hrg : env.runGitleaks (gitleaks_args dir (dir ++ "/__gitleaks.json")
            gl_conf_path) with
        | error e =>
          rw [scan_repo_tool_err repo pat orgname gl_conf_path env dir e u hmk hcl hrg]
          constructor
          · intro r hr
            simp only [List.mem_singleton] at hr
            subst hr
            refine ⟨hname, hurl, horg, ?_, ?_⟩
            · intro e' he'
              simp [scan_base] at he'
              subst he'
              exact hrgerr _ e hrg
            · simp [scan_base]
          · intro L hL
            simp at hL
            rcases hL with hL | hL
            all_goals subst hL
            · refine ⟨?_, ?_⟩
              · intro kv hkv
                simp [tempdir_log] at hkv
                rcases hkv with hkv | hkv
                all_goals subst hkv
                · exact hname
                · exact hdir
              · intro e' he'
                simp [tempdir_log] at he'
            · refine ⟨?_, ?_⟩
              · intro kv hkv
                simp [scan_err_log] at hkv
                subst hkv
                exact hname
              · intro e' he'
                simp [scan_err_log] at he'
                subst he'
                exact hrgerr _ e hrg
        | ok u' =>
          cases hrd : env.readFile (dir ++ "/__gitleaks.json") with
          | error e =>
            rw [scan_repo_read_err repo pat orgname gl_conf_path env dir e u u'
              hmk hcl hrg hrd]
            constructor
            · intro r hr
              simp only [List.mem_singleton] at hr
              subst hr
              refine ⟨hname, hurl, horg, ?_, ?_⟩
              · intro e' he'
                simp [scan_base] at he'
                subst he'
                exact hrderr _ e hrd
              · simp [scan_base]
            · intro L hL
              simp at hL
              rcases hL with hL | hL
              all_goals subst hL
              · refine ⟨?_, ?_⟩
                · intro kv hkv
                  simp [tempdir_log] at hkv
                  rcases hkv with hkv | hkv
                  all_goals subst hkv
                  · exact hname
                  · exact hdir
                · intro e' he'
                  simp [tempdir_log] at he'
              · refine ⟨?_, ?_⟩
                · intro kv hkv
                  simp [scan_err_log] at hkv
                  subst hkv
                  exact hname
                · intro e' he'
                  simp [scan_err_log] at he'
                  subst he'
                  exact hrderr _ e hrd
          | ok content =>
            cases hps : env.parseResults content with
            | error e =>
              rw [scan_repo_parse_err repo pat orgname gl_conf_path env dir content e
                u u' hmk hcl hrg hrd hps]
              constructor
              · intro r hr
                simp only [List.mem_singleton] at hr
                subst hr
                refine ⟨hname, hurl, horg, ?_, ?_⟩
                · intro e' he'
                  simp [scan_base] at he'
                  subst he'
                  exact hpserr _ e hps
                · simp [scan_base]
              · intro L hL
                simp at hL
                rcases hL with hL | hL
                all_goals subst hL
                · refine ⟨?_, ?_⟩
                  · intro kv hkv
                    simp [tempdir_log] at hkv
                    rcases hkv with hkv | hkv
                    all_goals subst hkv
                    · exact hname
                    · exact hdir
                  · intro e' he'
                    simp [tempdir_log] at he'
                · refine ⟨?_, ?_⟩
                  · intro kv hkv
                    simp [scan_err_log] at hkv
                    subst hkv
                    exact hname
                  · intro e' he'
                    simp [scan_err_log] at he'
                    subst he'
                    exact hpserr _ e hps
            | ok rs =>
              rw [scan_repo_success repo pat orgname gl_conf_path env dir content rs
                u u' hmk hcl hrg hrd hps]
              constructor
              · intro r hr
                simp only [List.mem_singleton] at hr
                subst hr
                refine ⟨hname, hurl, horg, ?_, ?_⟩
                · intro e' he'
                  simp [scan_base] at he'
                · intro f hf
                  simp only [scan_base] at hf
                  exact hpsok content rs hps f hf
              · intro L hL
                simp only [List.mem_singleton] at hL
                subst hL
                refine ⟨?_, ?_⟩
                · intro kv hkv
                  simp [tempdir_log] at hkv
                  rcases hkv with hkv | hkv
                  all_goals subst hkv
                  · exact hname
                  · exact hdir
                · intro e' he'
                  simp [tempdir_log] at he'
  exact ⟨key.1, key.2, fun hp => auth_clone_url_contains repo.cloneUrl pat hp⟩

/-- Witness for C9 on the clone-failure environment: the result and the
logs stay clean of the token `tok`, which nevertheless occurs in the
authenticated clone URL. -/
theorem claim_C9_witness :
    (∀ r ∈ (scan_repo acme_recent "tok" "acme" "./configs/gitleaks.toml"
      env_clone_fail).sent, result_clean "tok" r) ∧
    (∀ L ∈ (scan_repo acme_recent "tok" "acme" "./configs/gitleaks.toml"
      env_clone_fail).logs, log_clean "tok" L) ∧
    containsToken "tok" (auth_clone_url acme_recent.cloneUrl "tok") = true := by
  have h := claim_C9 acme_recent "tok" "acme" "./configs/gitleaks.toml" env_clone_fail
    (by decide) (by decide) (by decide)
    (by intro e he; simp [env_clone_fail] at he)
    (by intro dir hd; simp [env_clone_fail] at hd; subst hd; decide)
    (by intro u d e he; simp [env_clone_fail] at he; subst he; decide)
    (by intro args e he; simp [env_clone_fail] at he)
    (by intro p e he; simp [env_clone_fail] at he)
    (by intro c e he; simp [env_clone_fail] at he)
    (by intro c rs hc f hf; simp [env_clone_fail] at hc; subst hc; simp at hf)
  exact ⟨h.1, h.2.1, h.2.2 (by decide)⟩

/-! ## C7 — archived repositories are invisible to discovery -/

/-- Claim C7: discovery's output never contains a repository whose
archived flag is set, and an archived repository — even one strictly
older than the cutoff — is skipped without setting `saw_older`, so it
never terminates discovery: the page processes exactly as if the
archived entry were absent. -/
theorem claim_C7 :
    (∀ (api : Nat → Option (List Repo)) (timeAgo : Int) (fuel : Nat)
       (res : List Repo) (pages : List Nat),
      get_org_repos api timeAgo fuel = some (.ok res, pages) →
      ∀ r ∈ res, r.archived = false) ∧
    (∀ (timeAgo : Int) (a : Repo) (rest : List Repo),
      a.archived = true → a.pushedAt < timeAgo →
      process_page timeAgo (a :: rest) = process_page timeAgo rest) := by
  constructor
  · intro api timeAgo fuel res pages h r hr
    exact get_org_repos_loop_not_archived api timeAgo fuel 0 [] [] res pages
      (by simp) h r hr
  · intro timeAgo a rest ha _
    exact process_page_archived timeAgo a rest ha

/-- Witness for C7: the concrete discovery run of `api_dup` returns
only non-archived repositories, and prepending the archived stale
repository to a page leaves its processing unchanged. -/
theorem claim_C7_witness :
    (∀ r ∈ [acme_recent, acme_recent], r.archived = false) ∧
    process_page 50 [acme_archived, acme_stale] = process_page 50 [acme_stale] := by
  constructor
  · exact claim_C7.1 api_dup 50 5 [acme_recent, acme_recent] [0, 1, 2] (by decide)
  · exact claim_C7.2 50 acme_archived [acme_stale] (by decide) (by decide)

end Moss

